import Mathlib

/-!
# Verification of the `rim` text editor buffer engine

Shallow embedding of `src/buffer.rs`: the line-oriented document store
(`Vec<Vec<char>>` with sentinel-terminated lines), the cursor, the viewport
offsets, the edit operations, the `confine_frame` scrolling loops, the
renderer `print`, and the load/save serialization.

Conventions of the embedding:
* Rust `usize` becomes `Nat`; Rust's `a - b` on unsigned values appears only
  where the source guarantees `b ≤ a`, and is modelled by truncated `Nat`
  subtraction.
* Rust indexing `v[i]` (which panics out of bounds) is modelled totally by
  `List.getD i default`; every theorem carries the well-formedness
  hypotheses under which the source never goes out of bounds.
* The render `Window` (a fixed `100 × 1000` array of `char`) is modelled as
  a total function `Nat → Nat → Char`.
-/

set_option maxHeartbeats 1000000

/-- The sentinel terminator `'\0'`: every line of the document ends with it. -/
def sentinel : Char := Char.ofNat 0

/-- Rust: `struct Frame { start_row, start_col, end_row, end_col : u16 }`
(a rectangle inside the window; `end_row`/`end_col` exclusive). -/
structure Frame where
  start_row : Nat
  start_col : Nat
  end_row : Nat
  end_col : Nat
deriving Repr, DecidableEq

/-- Rust: `struct Buffer { data, name, cur_col, cur_row, buf_row, buf_col }`.
The `name` field (the file path) plays no role in the claims and is omitted.
As in the source, `buf_col` is the viewport *row* offset (first document row
printed) and `buf_row` the viewport *column* offset: the two fields are used
that way throughout `confine_frame` and `print`. -/
structure Buffer where
  data : List (List Char)
  cur_col : Nat
  cur_row : Nat
  buf_row : Nat
  buf_col : Nat
deriving Repr, DecidableEq

namespace Buffer

/-- Total model of the Rust indexing `self.data[r]`. -/
def lineAt (b : Buffer) (r : Nat) : List Char := b.data.getD r []

/-- Rust `Buffer::reset_x`:
`self.cur_col = self.cur_col.min(self.data[self.cur_row].len() - 1)`. -/
def reset_x (b : Buffer) : Buffer :=
  { b with cur_col := min b.cur_col ((b.lineAt b.cur_row).length - 1) }

/-- Rust `Buffer::move_start_of_line`: `self.cur_col = 0`. -/
def move_start_of_line (b : Buffer) : Buffer := { b with cur_col := 0 }

/-- Rust `Buffer::move_end_of_line`:
`self.cur_col = self.data[self.cur_row].len() - 1`. -/
def move_end_of_line (b : Buffer) : Buffer :=
  { b with cur_col := (b.lineAt b.cur_row).length - 1 }

/-- Rust `Buffer::move_up`: mutates `self` and returns whether it moved.
Modelled as returning the pair (moved?, new state). -/
def move_up (b : Buffer) : Bool × Buffer :=
  if b.cur_row > 0 then (true, reset_x { b with cur_row := b.cur_row - 1 })
  else (false, b)

/-- Rust `Buffer::move_down`: mutates `self` and returns whether it moved. -/
def move_down (b : Buffer) : Bool × Buffer :=
  if b.cur_row < b.data.length - 1 then
    (true, reset_x { b with cur_row := b.cur_row + 1 })
  else (false, b)

/-- Rust `Buffer::move_right`. -/
def move_right (b : Buffer) : Buffer :=
  if b.cur_col < (b.lineAt b.cur_row).length - 1 then
    { b with cur_col := b.cur_col + 1 }
  else
    let m := b.move_down
    if m.1 then m.2.move_start_of_line else m.2

/-- Rust `Buffer::move_left`. -/
def move_left (b : Buffer) : Buffer :=
  if b.cur_col > 0 then { b with cur_col := b.cur_col - 1 }
  else
    let m := b.move_up
    if m.1 then m.2.move_end_of_line else m.2

/-- Rust `Buffer::insert_nl`: copy the tail of the current line from the
cursor, insert it as a new line below, truncate the current line at the
cursor and push the sentinel, then `move_down(); move_start_of_line()`. -/
def insert_nl (b : Buffer) : Buffer :=
  let newline := (b.lineAt b.cur_row).drop b.cur_col
  let d1 := b.data.insertIdx (b.cur_row + 1) newline
  let d2 := d1.set b.cur_row ((d1.getD b.cur_row []).take b.cur_col ++ [sentinel])
  let b1 := { b with data := d2 }
  ((b1.move_down).2).move_start_of_line

/-- Rust `Buffer::join_line`: no-op on row 0; otherwise pop the sentinel of
the line above, remember its length, remove the current line, append it to
the line above, `move_up()`, and set the column to the remembered length. -/
def join_line (b : Buffer) : Buffer :=
  if b.cur_row = 0 then b
  else
    let d1 := b.data.set (b.cur_row - 1) ((b.lineAt (b.cur_row - 1)).dropLast)
    let above_line_len := (d1.getD (b.cur_row - 1) []).length
    let line_to_join := d1.getD b.cur_row []
    let d2 := d1.eraseIdx b.cur_row
    let d3 := d2.set (b.cur_row - 1) ((d2.getD (b.cur_row - 1) []) ++ line_to_join)
    let b2 := ({ b with data := d3 }.move_up).2
    { b2 with cur_col := above_line_len }

/-- Rust `Buffer::insert_char`:
`self.data[self.cur_row].insert(self.cur_col, c); self.move_right()`. -/
def insert_char (b : Buffer) (c : Char) : Buffer :=
  ({ b with
      data := b.data.set b.cur_row ((b.lineAt b.cur_row).insertIdx b.cur_col c) }).move_right

/-- Rust `Buffer::delete_char`: if `cur_col > 0` remove the char at
`cur_col - 1` and `move_left()`, else `join_line()`. -/
def delete_char (b : Buffer) : Buffer :=
  if b.cur_col > 0 then
    ({ b with
        data := b.data.set b.cur_row
          ((b.lineAt b.cur_row).eraseIdx (b.cur_col - 1)) }).move_left
  else b.join_line

end Buffer

/-- The first `while` loop pattern of `confine_frame`:
`while cur < buf { buf -= 1 }`. -/
def shiftDown (cur buf : Nat) : Nat :=
  if h : cur < buf then shiftDown cur (buf - 1) else buf
termination_by buf
decreasing_by omega

/-- The second `while` loop pattern of `confine_frame`:
`while cur > buf + len - 1 { buf += 1 }` (with `len` the frame extent). -/
def shiftUp (cur buf len : Nat) : Nat :=
  if h : cur > buf + len - 1 then shiftUp cur (buf + 1) len else buf
termination_by cur + 1 - buf
decreasing_by omega

namespace Buffer

/-- Rust `Buffer::confine_frame`: step `buf_col` (the row offset) and
`buf_row` (the column offset) one unit at a time until the cursor lies
inside the frame. -/
def confine_frame (b : Buffer) (f : Frame) : Buffer :=
  let frame_height := f.end_row - f.start_row
  let frame_width := f.end_col - f.start_col
  let bufCol := shiftUp b.cur_row (shiftDown b.cur_row b.buf_col) frame_height
  let bufRow := shiftUp b.cur_col (shiftDown b.cur_col b.buf_row) frame_width
  { b with buf_col := bufCol, buf_row := bufRow }

end Buffer

/-- The render target: the `Window` grid, modelled as a total function from
(row, column) to the character stored there. -/
abbrev Grid : Type := Nat → Nat → Char

/-- One assignment `window[r][c] = ch`. -/
def writeCell (g : Grid) (r c : Nat) (ch : Char) : Grid :=
  fun r2 c2 => if r2 = r ∧ c2 = c then ch else g r2 c2

/-- Inner column loop of `Buffer::print` for a document row that exists:
paint the line's character when `dataCol` is in range, else a blank. -/
def printCols (line : List Char) (dataCol col endCol row : Nat) (g : Grid) : Grid :=
  if h : col < endCol then
    let ch := if dataCol < line.length then line.getD dataCol ' ' else ' '
    printCols line (dataCol + 1) (col + 1) endCol row (writeCell g row col ch)
  else g
termination_by endCol - col
decreasing_by omega

/-- Blank-fill loop of `Buffer::print` for a display row past the end of the
document (everything after the tilde column). -/
def printBlanks (col endCol row : Nat) (g : Grid) : Grid :=
  if h : col < endCol then
    printBlanks (col + 1) endCol row (writeCell g row col ' ')
  else g
termination_by endCol - col
decreasing_by omega

/-- Outer row loop of `Buffer::print`: `bufRow` is the column offset
(`self.buf_row`), `dataRow` starts at the row offset (`self.buf_col`). -/
def printRows (data : List (List Char)) (bufRow dataRow row : Nat) (f : Frame)
    (g : Grid) : Grid :=
  if h : row < f.end_row then
    let g1 :=
      if dataRow < data.length then
        printCols (data.getD dataRow []) bufRow f.start_col f.end_col row g
      else
        printBlanks (f.start_col + 1) f.end_col row (writeCell g row f.start_col '~')
    printRows data bufRow (dataRow + 1) (row + 1) f g1
  else g
termination_by f.end_row - row
decreasing_by omega

namespace Buffer

/-- Rust `Buffer::print`: confine the viewport to the frame, then paint the
frame rectangle of the grid. Returns the updated buffer (offsets moved by
`confine_frame`) and the updated grid. -/
def print (b : Buffer) (f : Frame) (g : Grid) : Buffer × Grid :=
  let b1 := b.confine_frame f
  (b1, printRows b1.data b1.buf_row b1.buf_col f.start_row f g)

end Buffer

/-- Body of the fold in `Buffer::save`, made explicit as a recursion over the
lines with their index `i`: extend the accumulator with the line, `pop` the
last accumulated character (the line's sentinel), and push `'\n'` unless
this is the last line. -/
def saveGo (lastIdx : Nat) (i : Nat) (acc : List Char) :
    List (List Char) → List Char
  | [] => acc
  | l :: rest =>
      let acc1 := (acc ++ l).dropLast
      let acc2 := if i ≠ lastIdx then acc1 ++ ['\n'] else acc1
      saveGo lastIdx (i + 1) acc2 rest

/-- The byte string computed by `Buffer::save` from the document before it is
written out. -/
def saveBytes (data : List (List Char)) : List Char :=
  saveGo (data.length - 1) 0 [] data

/-- Outcome of one `Buffer::save` call. `createErrReported` is the
`Err(e) => eprintln!(...)` arm of `File::create`; `panicked` is the
`.unwrap()` on a failed `f.write(...)`. -/
inductive SaveOutcome
  | saved
  | createErrReported
  | panicked
deriving Repr, DecidableEq

namespace Buffer

/-- Rust `Buffer::save` with its two filesystem effects made explicit
parameters: `createRes` is the result of `File::create`, `writeRes` the
result of `f.write` (number of bytes written). A `createRes` error is
caught and reported via `eprintln!`; a `writeRes` error hits `.unwrap()`
and panics. In every case `self` (in particular `self.data`) is unchanged. -/
def save (b : Buffer) (createRes : Except String Unit)
    (writeRes : Except String Nat) : SaveOutcome × Buffer :=
  match createRes with
  | .ok _ =>
    match writeRes with
    | .ok _ => (SaveOutcome.saved, b)
    | .error _ => (SaveOutcome.panicked, b)
  | .error _ => (SaveOutcome.createErrReported, b)

end Buffer

/-- The splitting in `read_buffer`: Rust
`s.split(|c| c == '\n' || c == '\r')`, as a recursion over the characters.
Like Rust's `split`, it yields `[[]]` on the empty string and an empty final
piece after a trailing separator. -/
def splitLines : List Char → List (List Char)
  | [] => [[]]
  | c :: rest =>
      if c = '\n' ∨ c = '\r' then [] :: splitLines rest
      else
        match splitLines rest with
        | [] => [[c]]
        | l :: ls => (c :: l) :: ls

/-- Rust `read_buffer` applied to the file's contents: split on `'\n'` or
`'\r'` and append the sentinel to every piece. -/
def read_buffer (s : List Char) : List (List Char) :=
  (splitLines s).map (fun l => l ++ [sentinel])

/-- Rust `empty_buffer`: one line holding only the sentinel. -/
def empty_buffer : List (List Char) := [[sentinel]]

/-- A well-formed line: non-empty and ending in the sentinel. -/
def WFline (l : List Char) : Prop := l ≠ [] ∧ l.getLast? = some sentinel

instance (l : List Char) : Decidable (WFline l) := by
  unfold WFline; infer_instance

/-- A well-formed document: at least one line, every line well-formed. -/
def WFdata (d : List (List Char)) : Prop := 1 ≤ d.length ∧ ∀ l ∈ d, WFline l

instance (d : List (List Char)) : Decidable (WFdata d) := by
  unfold WFdata; infer_instance

/-- A well-formed buffer state: well-formed document, cursor row inside the
document, cursor column inside the current line (at worst on the
sentinel). -/
def WF (b : Buffer) : Prop :=
  WFdata b.data ∧ b.cur_row < b.data.length ∧
    b.cur_col < (b.lineAt b.cur_row).length

instance (b : Buffer) : Decidable (WF b) := by
  unfold WF; infer_instance

/-! ## Basic facts about well-formed lines and documents -/

theorem WFline.length_pos {l : List Char} (h : WFline l) : 0 < l.length :=
  List.length_pos.mpr h.1

theorem WFline_concat (l : List Char) : WFline (l ++ [sentinel]) :=
  ⟨by simp, List.getLast?_concat l⟩

theorem WFline_append {l m : List Char} (hm : WFline m) : WFline (l ++ m) := by
  refine ⟨by simp [hm.1], ?_⟩
  rw [List.getLast?_append_of_ne_nil _ hm.1]
  exact hm.2

theorem lineAt_eq_getElem (b : Buffer) {r : Nat} (hr : r < b.data.length) :
    b.lineAt r = b.data[r] :=
  List.getD_eq_getElem b.data [] hr

theorem lineAt_mem (b : Buffer) {r : Nat} (hr : r < b.data.length) :
    b.lineAt r ∈ b.data := by
  rw [lineAt_eq_getElem b hr]
  exact List.getElem_mem hr

theorem WFdata.lineAt_wf {b : Buffer} (hd : WFdata b.data) {r : Nat}
    (hr : r < b.data.length) : WFline (b.lineAt r) :=
  hd.2 _ (lineAt_mem b hr)

theorem WFdata.lineAt_pos {b : Buffer} (hd : WFdata b.data) {r : Nat}
    (hr : r < b.data.length) : 0 < (b.lineAt r).length :=
  (hd.lineAt_wf hr).length_pos

/-! ## List-level helper lemmas -/

theorem insertIdx_eq_take_cons_drop {α : Type} (a : α) :
    ∀ (n : Nat) (l : List α), n ≤ l.length →
      l.insertIdx n a = l.take n ++ a :: l.drop n
  | 0, l, _ => by simp
  | n + 1, [], h => by simp at h
  | n + 1, x :: l, h => by
    simp only [List.insertIdx_succ_cons, List.take_succ_cons, List.drop_succ_cons,
      List.cons_append, List.cons.injEq, true_and]
    exact insertIdx_eq_take_cons_drop a n l (by simpa using h)

theorem set_eraseIdx_comm {α : Type} (x : α) :
    ∀ (l : List α) (i r : Nat), i < r →
      (l.set i x).eraseIdx r = (l.eraseIdx r).set i x
  | [], _, _, _ => by simp
  | a :: l, 0, r + 1, _ => by simp
  | a :: l, i + 1, r + 1, h => by
    simp only [List.set_cons_succ, List.eraseIdx_cons_succ, List.cons.injEq, true_and]
    exact set_eraseIdx_comm x l i r (by omega)

theorem set_getD_self {α : Type} (l : List α) (i : Nat) (d : α)
    (h : i < l.length) : l.set i (l.getD i d) = l := by
  apply List.ext_getElem (by simp)
  intro n h1 h2
  rcases eq_or_ne n i with rfl | hne
  · rw [List.getElem_set_self, List.getD_eq_getElem l d h]
  · simp [List.getElem_set_ne (Ne.symm hne)]

/-! ## Unfolding lemmas for the cursor moves -/

namespace Buffer

@[simp] theorem reset_x_data (b : Buffer) : (b.reset_x).data = b.data := rfl

@[simp] theorem reset_x_cur_row (b : Buffer) : (b.reset_x).cur_row = b.cur_row := rfl

@[simp] theorem reset_x_cur_col (b : Buffer) :
    (b.reset_x).cur_col = min b.cur_col ((b.lineAt b.cur_row).length - 1) := rfl

@[simp] theorem lineAt_mk (d : List (List Char)) (cc cr br bc : Nat) (r : Nat) :
    (Buffer.mk d cc cr br bc).lineAt r = d.getD r [] := rfl

theorem move_up_of_pos {b : Buffer} (h : 0 < b.cur_row) :
    b.move_up = (true, Buffer.reset_x { b with cur_row := b.cur_row - 1 }) := by
  simp [Buffer.move_up, h]

theorem move_up_of_zero {b : Buffer} (h : b.cur_row = 0) : b.move_up = (false, b) := by
  simp [Buffer.move_up, h]

theorem move_down_of_lt {b : Buffer} (h : b.cur_row < b.data.length - 1) :
    b.move_down = (true, Buffer.reset_x { b with cur_row := b.cur_row + 1 }) := by
  simp [Buffer.move_down, h]

theorem move_down_of_last {b : Buffer} (h : ¬b.cur_row < b.data.length - 1) :
    b.move_down = (false, b) := by
  simp [Buffer.move_down, h]

theorem wf_reset_x {b : Buffer} (hd : WFdata b.data)
    (hr : b.cur_row < b.data.length) : WF b.reset_x := by
  have hlen := hd.lineAt_pos hr
  refine ⟨hd, hr, ?_⟩
  show min b.cur_col ((b.lineAt b.cur_row).length - 1) < (b.lineAt b.cur_row).length
  omega

theorem wf_move_up {b : Buffer} (h : WF b) : WF (b.move_up).2 := by
  obtain ⟨hd, hr, hc⟩ := h
  rcases Nat.eq_zero_or_pos b.cur_row with h0 | h0
  · rw [move_up_of_zero h0]; exact ⟨hd, hr, hc⟩
  · rw [move_up_of_pos h0]
    exact wf_reset_x hd (show b.cur_row - 1 < b.data.length by omega)

theorem wf_move_down {b : Buffer} (h : WF b) : WF (b.move_down).2 := by
  obtain ⟨hd, hr, hc⟩ := h
  by_cases hlt : b.cur_row < b.data.length - 1
  · rw [move_down_of_lt hlt]
    exact wf_reset_x hd (show b.cur_row + 1 < b.data.length by omega)
  · rw [move_down_of_last hlt]; exact ⟨hd, hr, hc⟩

theorem wf_move_start_of_line {b : Buffer} (h : WF b) : WF b.move_start_of_line := by
  obtain ⟨hd, hr, _⟩ := h
  exact ⟨hd, hr, hd.lineAt_pos hr⟩

theorem wf_move_end_of_line {b : Buffer} (h : WF b) : WF b.move_end_of_line := by
  obtain ⟨hd, hr, _⟩ := h
  have := hd.lineAt_pos hr
  refine ⟨hd, hr, ?_⟩
  show (b.lineAt b.cur_row).length - 1 < (b.lineAt b.cur_row).length
  omega

theorem move_right_of_lt {b : Buffer} (h : b.cur_col < (b.lineAt b.cur_row).length - 1) :
    b.move_right = { b with cur_col := b.cur_col + 1 } := by
  rw [Buffer.move_right, if_pos h]

theorem move_right_of_end {b : Buffer} (h : ¬b.cur_col < (b.lineAt b.cur_row).length - 1) :
    b.move_right =
      if (b.move_down).1 = true then (b.move_down).2.move_start_of_line
      else (b.move_down).2 := by
  rw [Buffer.move_right, if_neg h]

theorem move_left_of_pos {b : Buffer} (h : 0 < b.cur_col) :
    b.move_left = { b with cur_col := b.cur_col - 1 } := by
  rw [Buffer.move_left, if_pos h]

theorem move_left_of_zero {b : Buffer} (h : ¬0 < b.cur_col) :
    b.move_left =
      if (b.move_up).1 = true then (b.move_up).2.move_end_of_line
      else (b.move_up).2 := by
  rw [Buffer.move_left, if_neg h]

theorem wf_move_right {b : Buffer} (h : WF b) : WF b.move_right := by
  by_cases hlt : b.cur_col < (b.lineAt b.cur_row).length - 1
  · rw [move_right_of_lt hlt]
    refine ⟨h.1, h.2.1, ?_⟩
    show b.cur_col + 1 < (b.lineAt b.cur_row).length
    omega
  · rw [move_right_of_end hlt]
    have h2 := wf_move_down h
    by_cases hm : (b.move_down).1 = true
    · rw [if_pos hm]; exact wf_move_start_of_line h2
    · rw [if_neg hm]; exact h2

theorem wf_move_left {b : Buffer} (h : WF b) : WF b.move_left := by
  by_cases hpos : 0 < b.cur_col
  · rw [move_left_of_pos hpos]
    obtain ⟨hd, hr, hc⟩ := h
    refine ⟨hd, hr, ?_⟩
    show b.cur_col - 1 < (b.lineAt b.cur_row).length
    omega
  · rw [move_left_of_zero hpos]
    have h2 := wf_move_up h
    by_cases hm : (b.move_up).1 = true
    · rw [if_pos hm]; exact wf_move_end_of_line h2
    · rw [if_neg hm]; exact h2

end Buffer

/-! ## More list helpers: `getD` over `set`/`insertIdx`, last elements -/

theorem getD_set_self {α : Type} (l : List α) (i : Nat) (x d : α)
    (h : i < l.length) : (l.set i x).getD i d = x := by
  rw [List.getD_eq_getElem _ d (by simpa using h), List.getElem_set_self]

theorem getD_set_ne {α : Type} (l : List α) {i j : Nat} (x d : α)
    (h : i ≠ j) : (l.set i x).getD j d = l.getD j d := by
  by_cases hj : j < l.length
  · rw [List.getD_eq_getElem _ d (by simpa using hj), List.getD_eq_getElem _ d hj,
      List.getElem_set_ne h]
  · rw [List.getD_eq_default _ d (by simpa using Nat.le_of_not_lt hj),
      List.getD_eq_default _ d (Nat.le_of_not_lt hj)]

theorem getD_insertIdx_of_lt {α : Type} (l : List α) (x d : α) {n k : Nat}
    (hk : k < n) (h : k < l.length) : (l.insertIdx n x).getD k d = l.getD k d := by
  rw [List.getD_eq_getElem _ d h,
    List.getD_eq_getElem _ d (h.trans_le (List.length_le_length_insertIdx l x n)),
    List.getElem_insertIdx_of_lt l x n k hk h]

theorem getD_insertIdx_self {α : Type} (l : List α) (x d : α) {n : Nat}
    (h : n ≤ l.length) : (l.insertIdx n x).getD n d = x := by
  have hlen : (l.insertIdx n x).length = l.length + 1 := List.length_insertIdx n l h
  rw [List.getD_eq_getElem _ d (by omega), List.getElem_insertIdx_self l x n h]

theorem getLast?_drop_of_lt {α : Type} (l : List α) {n : Nat} (h : n < l.length) :
    (l.drop n).getLast? = l.getLast? := by
  conv_rhs => rw [← List.take_append_drop n l]
  rw [List.getLast?_append_of_ne_nil]
  exact List.ne_nil_of_length_pos (by simp; omega)

theorem drop_ne_nil_of_lt {α : Type} (l : List α) {n : Nat} (h : n < l.length) :
    l.drop n ≠ [] :=
  List.ne_nil_of_length_pos (by simp; omega)

theorem WFline_drop {l : List Char} (hw : WFline l) {n : Nat} (h : n < l.length) :
    WFline (l.drop n) :=
  ⟨drop_ne_nil_of_lt l h, by rw [getLast?_drop_of_lt l h]; exact hw.2⟩

theorem WFline_insertIdx {l : List Char} (hw : WFline l) {n : Nat}
    (h : n < l.length) (c : Char) : WFline (l.insertIdx n c) := by
  rw [insertIdx_eq_take_cons_drop c n l (le_of_lt h)]
  refine ⟨by simp, ?_⟩
  rw [List.getLast?_append_of_ne_nil _ (by simp),
    show (c :: l.drop n) = [c] ++ l.drop n from rfl,
    List.getLast?_append_of_ne_nil _ (drop_ne_nil_of_lt l h),
    getLast?_drop_of_lt l h]
  exact hw.2

theorem WFline_eraseIdx {l : List Char} (hw : WFline l) {n : Nat}
    (h : n + 1 < l.length) : WFline (l.eraseIdx n) := by
  rw [List.eraseIdx_eq_take_drop_succ]
  refine ⟨?_, ?_⟩
  · intro hnil
    rw [List.append_eq_nil] at hnil
    exact drop_ne_nil_of_lt l h hnil.2
  · rw [List.getLast?_append_of_ne_nil _ (drop_ne_nil_of_lt l h),
      getLast?_drop_of_lt l h]
    exact hw.2

/-! ## Characterization of the edit operations on well-formed states -/

namespace Buffer

theorem insert_char_eq {b : Buffer} (h : WF b) (c : Char) :
    b.insert_char c =
      { b with
          data := b.data.set b.cur_row ((b.lineAt b.cur_row).insertIdx b.cur_col c),
          cur_col := b.cur_col + 1 } := by
  obtain ⟨hd, hr, hc⟩ := h
  unfold Buffer.insert_char
  rw [move_right_of_lt]
  have hlen : ((b.lineAt b.cur_row).insertIdx b.cur_col c).length
      = (b.lineAt b.cur_row).length + 1 :=
    List.length_insertIdx b.cur_col _ (le_of_lt hc)
  show b.cur_col <
    ((b.data.set b.cur_row ((b.lineAt b.cur_row).insertIdx b.cur_col c)).getD
      b.cur_row []).length - 1
  rw [getD_set_self _ _ _ _ hr, hlen]
  omega

theorem insert_nl_eq {b : Buffer} (h : WF b) :
    b.insert_nl =
      { b with
          data := (b.data.insertIdx (b.cur_row + 1)
              ((b.lineAt b.cur_row).drop b.cur_col)).set b.cur_row
            ((b.lineAt b.cur_row).take b.cur_col ++ [sentinel]),
          cur_row := b.cur_row + 1,
          cur_col := 0 } := by
  obtain ⟨hd, hr, hc⟩ := h
  unfold Buffer.insert_nl
  dsimp only
  have hd1 : (b.data.insertIdx (b.cur_row + 1) ((b.lineAt b.cur_row).drop b.cur_col)).getD
      b.cur_row [] = b.lineAt b.cur_row :=
    getD_insertIdx_of_lt b.data _ [] (Nat.lt_succ_self _) hr
  rw [hd1]
  have hlen1 : (b.data.insertIdx (b.cur_row + 1)
      ((b.lineAt b.cur_row).drop b.cur_col)).length = b.data.length + 1 :=
    List.length_insertIdx _ b.data hr
  rw [move_down_of_lt (by simp [hlen1]; omega)]
  rfl

theorem join_line_eq {b : Buffer} (hr0 : b.cur_row ≠ 0)
    (hr : b.cur_row < b.data.length) :
    b.join_line =
      { b with
          data := (b.data.eraseIdx b.cur_row).set (b.cur_row - 1)
            ((b.lineAt (b.cur_row - 1)).dropLast ++ b.lineAt b.cur_row),
          cur_row := b.cur_row - 1,
          cur_col := (b.lineAt (b.cur_row - 1)).dropLast.length } := by
  unfold Buffer.join_line
  rw [if_neg hr0]
  dsimp only
  have hrm : b.cur_row - 1 < b.data.length := by omega
  have h1 : (b.data.set (b.cur_row - 1) (b.lineAt (b.cur_row - 1)).dropLast).getD
      (b.cur_row - 1) [] = (b.lineAt (b.cur_row - 1)).dropLast :=
    getD_set_self _ _ _ _ hrm
  have h2 : (b.data.set (b.cur_row - 1) (b.lineAt (b.cur_row - 1)).dropLast).getD
      b.cur_row [] = b.lineAt b.cur_row :=
    getD_set_ne _ _ _ (by omega)
  have h3 : (b.data.set (b.cur_row - 1) (b.lineAt (b.cur_row - 1)).dropLast).eraseIdx
      b.cur_row = (b.data.eraseIdx b.cur_row).set (b.cur_row - 1)
        ((b.lineAt (b.cur_row - 1)).dropLast) :=
    set_eraseIdx_comm _ b.data _ _ (by omega)
  have h4 : ((b.data.eraseIdx b.cur_row).set (b.cur_row - 1)
      ((b.lineAt (b.cur_row - 1)).dropLast)).getD (b.cur_row - 1) [] =
      (b.lineAt (b.cur_row - 1)).dropLast := by
    refine getD_set_self _ _ _ _ ?_
    rw [List.length_eraseIdx_of_lt hr]
    omega
  rw [h1, h2, h3, h4, List.set_set]
  have h5 : ({ b with
      data := (b.data.eraseIdx b.cur_row).set (b.cur_row - 1)
        ((b.lineAt (b.cur_row - 1)).dropLast ++ b.lineAt b.cur_row) } :
      Buffer).move_up =
      (true, Buffer.reset_x { b with
        data := (b.data.eraseIdx b.cur_row).set (b.cur_row - 1)
          ((b.lineAt (b.cur_row - 1)).dropLast ++ b.lineAt b.cur_row),
        cur_row := b.cur_row - 1 }) :=
    move_up_of_pos (by simpa using Nat.pos_of_ne_zero hr0)
  rw [h5]
  rfl

theorem delete_char_eq_of_pos {b : Buffer} (hpos : 0 < b.cur_col) :
    b.delete_char =
      { b with
          data := b.data.set b.cur_row ((b.lineAt b.cur_row).eraseIdx (b.cur_col - 1)),
          cur_col := b.cur_col - 1 } := by
  unfold Buffer.delete_char
  rw [if_pos hpos]
  exact @move_left_of_pos _ hpos

theorem delete_char_eq_of_zero {b : Buffer} (h0 : ¬0 < b.cur_col) :
    b.delete_char = b.join_line := by
  unfold Buffer.delete_char
  rw [if_neg h0]

/-! ## Well-formedness preservation for the edit operations -/

theorem wf_insert_char {b : Buffer} (h : WF b) (c : Char) : WF (b.insert_char c) := by
  obtain ⟨hd, hr, hc⟩ := h
  rw [insert_char_eq ⟨hd, hr, hc⟩ c]
  have hwl := hd.lineAt_wf hr
  have hlen : ((b.lineAt b.cur_row).insertIdx b.cur_col c).length
      = (b.lineAt b.cur_row).length + 1 :=
    List.length_insertIdx b.cur_col _ (le_of_lt hc)
  refine ⟨⟨?_, ?_⟩, ?_, ?_⟩
  · show 1 ≤ (b.data.set _ _).length
    rw [List.length_set]; exact hd.1
  · intro l hl
    rcases List.mem_or_eq_of_mem_set hl with hl | rfl
    · exact hd.2 l hl
    · exact WFline_insertIdx hwl hc c
  · show b.cur_row < (b.data.set _ _).length
    rw [List.length_set]; exact hr
  · show b.cur_col + 1 <
      ((b.data.set b.cur_row ((b.lineAt b.cur_row).insertIdx b.cur_col c)).getD
        b.cur_row []).length
    rw [getD_set_self _ _ _ _ hr, hlen]; omega

theorem wf_insert_nl {b : Buffer} (h : WF b) : WF b.insert_nl := by
  obtain ⟨hd, hr, hc⟩ := h
  rw [insert_nl_eq ⟨hd, hr, hc⟩]
  have hwl := hd.lineAt_wf hr
  have hlen1 : (b.data.insertIdx (b.cur_row + 1)
      ((b.lineAt b.cur_row).drop b.cur_col)).length = b.data.length + 1 :=
    List.length_insertIdx _ b.data hr
  refine ⟨⟨?_, ?_⟩, ?_, ?_⟩
  · show 1 ≤ ((b.data.insertIdx _ _).set _ _).length
    rw [List.length_set, hlen1]; omega
  · intro l hl
    rcases List.mem_or_eq_of_mem_set hl with hl | rfl
    · rcases (List.mem_insertIdx (by omega)).mp hl with rfl | hl
      · exact WFline_drop hwl hc
      · exact hd.2 l hl
    · exact WFline_concat _
  · show b.cur_row + 1 < ((b.data.insertIdx _ _).set _ _).length
    rw [List.length_set, hlen1]; omega
  · show 0 < (((b.data.insertIdx (b.cur_row + 1)
        ((b.lineAt b.cur_row).drop b.cur_col)).set b.cur_row
        ((b.lineAt b.cur_row).take b.cur_col ++ [sentinel])).getD
        (b.cur_row + 1) []).length
    rw [getD_set_ne _ _ _ (by omega), getD_insertIdx_self b.data _ [] hr]
    simp
    omega

theorem wf_join_line {b : Buffer} (h : WF b) : WF b.join_line := by
  obtain ⟨hd, hr, hc⟩ := h
  rcases eq_or_ne b.cur_row 0 with h0 | h0
  · rw [Buffer.join_line, if_pos h0]; exact ⟨⟨hd.1, hd.2⟩, hr, hc⟩
  · rw [join_line_eq h0 hr]
    have hrm : b.cur_row - 1 < b.data.length := by omega
    have hwlm := hd.lineAt_wf hrm
    have hwl := hd.lineAt_wf hr
    have hlenE : (b.data.eraseIdx b.cur_row).length = b.data.length - 1 :=
      List.length_eraseIdx_of_lt hr
    have hlen2 : 2 ≤ b.data.length := by omega
    refine ⟨⟨?_, ?_⟩, ?_, ?_⟩
    · show 1 ≤ ((b.data.eraseIdx _).set _ _).length
      rw [List.length_set, hlenE]; omega
    · intro l hl
      rcases List.mem_or_eq_of_mem_set hl with hl | rfl
      · exact hd.2 l (List.mem_of_mem_eraseIdx hl)
      · exact WFline_append hwl
    · show b.cur_row - 1 < ((b.data.eraseIdx _).set _ _).length
      rw [List.length_set, hlenE]; omega
    · show (b.lineAt (b.cur_row - 1)).dropLast.length <
        (((b.data.eraseIdx b.cur_row).set (b.cur_row - 1)
          ((b.lineAt (b.cur_row - 1)).dropLast ++ b.lineAt b.cur_row)).getD
          (b.cur_row - 1) []).length
      rw [getD_set_self _ _ _ _ (by rw [hlenE]; omega)]
      have := hwl.length_pos
      simp
      omega

theorem wf_delete_char {b : Buffer} (h : WF b) : WF b.delete_char := by
  obtain ⟨hd, hr, hc⟩ := h
  by_cases hpos : 0 < b.cur_col
  · rw [delete_char_eq_of_pos hpos]
    have hwl := hd.lineAt_wf hr
    have hlenE : ((b.lineAt b.cur_row).eraseIdx (b.cur_col - 1)).length
        = (b.lineAt b.cur_row).length - 1 :=
      List.length_eraseIdx_of_lt (by omega)
    refine ⟨⟨?_, ?_⟩, ?_, ?_⟩
    · show 1 ≤ (b.data.set _ _).length
      rw [List.length_set]; exact hd.1
    · intro l hl
      rcases List.mem_or_eq_of_mem_set hl with hl | rfl
      · exact hd.2 l hl
      · exact WFline_eraseIdx hwl (by omega)
    · show b.cur_row < (b.data.set _ _).length
      rw [List.length_set]; exact hr
    · show b.cur_col - 1 <
        ((b.data.set b.cur_row ((b.lineAt b.cur_row).eraseIdx (b.cur_col - 1))).getD
          b.cur_row []).length
      rw [getD_set_self _ _ _ _ hr, hlenE]; omega
  · rw [delete_char_eq_of_zero hpos]
    exact wf_join_line ⟨hd, hr, hc⟩

end Buffer

/-! ## Claim C1 -/

/-- C1: every core operation preserves well-formedness: from any state whose
document has length ≥ 1, whose lines are all non-empty and sentinel-terminated,
and whose cursor satisfies `row < len(Document)` and `col < len(Document[row])`,
each of `insert_char`, `delete_char`, `insert_nl`, `join_line`, `move_up`,
`move_down`, `move_left`, `move_right` produces a state satisfying the same
conditions. -/
theorem claim_C1_wf_preserved (b : Buffer) (c : Char) (h : WF b) :
    WF (b.insert_char c) ∧ WF b.delete_char ∧ WF b.insert_nl ∧ WF b.join_line ∧
      WF (b.move_up).2 ∧ WF (b.move_down).2 ∧ WF b.move_left ∧ WF b.move_right :=
  ⟨Buffer.wf_insert_char h c, Buffer.wf_delete_char h, Buffer.wf_insert_nl h,
    Buffer.wf_join_line h, Buffer.wf_move_up h, Buffer.wf_move_down h,
    Buffer.wf_move_left h, Buffer.wf_move_right h⟩

/-- A concrete well-formed two-line state used to instantiate the claims. -/
def bExample : Buffer := ⟨[['a', 'b', sentinel], ['c', sentinel]], 1, 1, 0, 0⟩

/-- Witness for C1 at a concrete state. -/
theorem claim_C1_witness :
    WF bExample ∧
      (WF (bExample.insert_char 'x') ∧ WF bExample.delete_char ∧
        WF bExample.insert_nl ∧ WF bExample.join_line ∧
        WF (bExample.move_up).2 ∧ WF (bExample.move_down).2 ∧
        WF bExample.move_left ∧ WF bExample.move_right) :=
  ⟨by decide, claim_C1_wf_preserved bExample 'x' (by decide)⟩

/-! ## Claim C2 -/

/-- C2: split/join round-trip: on any well-formed state, `insert_nl` followed
by `join_line` restores the document and the cursor exactly (in fact the
whole state, the viewport offsets being untouched by both). -/
theorem claim_C2_split_join_roundtrip (b : Buffer) (h : WF b) :
    b.insert_nl.join_line = b := by
  obtain ⟨hd, hr, hc⟩ := h
  obtain ⟨d, cc, cr, br, bc⟩ := b
  dsimp only at hd hr
  simp only [Buffer.lineAt_mk] at hc
  rw [Buffer.insert_nl_eq ⟨hd, hr, hc⟩]
  dsimp only [Buffer.lineAt_mk]
  have hlen1 : (d.insertIdx (cr + 1) ((d.getD cr []).drop cc)).length
      = d.length + 1 :=
    List.length_insertIdx _ d hr
  rw [Buffer.join_line_eq (by simp) (by
    show cr + 1 < ((d.insertIdx _ _).set _ _).length
    rw [List.length_set, hlen1]; omega)]
  dsimp only [Buffer.lineAt_mk]
  simp only [Nat.add_sub_cancel]
  rw [getD_set_self _ _ _ _ (by rw [hlen1]; omega)]
  rw [getD_set_ne _ _ _ (by omega), getD_insertIdx_self d _ [] hr]
  rw [set_eraseIdx_comm _ _ _ _ (Nat.lt_succ_self cr),
    List.eraseIdx_insertIdx (cr + 1) d, List.set_set, List.dropLast_concat,
    List.take_append_drop]
  rw [set_getD_self d cr [] hr]
  rw [List.length_take, Nat.min_eq_left (le_of_lt hc)]

/-- Witness for C2 at a concrete state. -/
theorem claim_C2_witness :
    WF bExample ∧ bExample.insert_nl.join_line = bExample :=
  ⟨by decide, claim_C2_split_join_roundtrip bExample (by decide)⟩

/-! ## Viewport loops: bounds for `shiftDown` and `shiftUp` -/

theorem shiftDown_eq_min (cur : Nat) : ∀ buf, shiftDown cur buf = min buf cur := by
  intro buf
  induction buf using Nat.strong_induction_on with
  | _ buf ih =>
    unfold shiftDown
    split
    · rename_i h
      rw [ih (buf - 1) (by omega)]
      omega
    · omega

theorem shiftUp_le_aux (cur len : Nat) (hlen : 1 ≤ len) :
    ∀ fuel buf, cur + 1 - buf ≤ fuel → buf ≤ cur → shiftUp cur buf len ≤ cur := by
  intro fuel
  induction fuel with
  | zero => intro buf h hb; omega
  | succ fuel ih =>
    intro buf h hb
    unfold shiftUp
    split
    · rename_i hcond
      exact ih (buf + 1) (by omega) (by omega)
    · exact hb

theorem shiftUp_le_cur {cur buf len : Nat} (hlen : 1 ≤ len) (hb : buf ≤ cur) :
    shiftUp cur buf len ≤ cur :=
  shiftUp_le_aux cur len hlen (cur + 1 - buf) buf le_rfl hb

theorem cur_le_shiftUp_aux (cur len : Nat) :
    ∀ fuel buf, cur + 1 - buf ≤ fuel → cur ≤ shiftUp cur buf len + len - 1 := by
  intro fuel
  induction fuel with
  | zero =>
    intro buf h
    unfold shiftUp
    split
    · rename_i hcond; omega
    · rename_i hcond; omega
  | succ fuel ih =>
    intro buf h
    unfold shiftUp
    split
    · rename_i hcond
      exact ih (buf + 1) (by omega)
    · rename_i hcond; omega

theorem cur_le_shiftUp (cur buf len : Nat) : cur ≤ shiftUp cur buf len + len - 1 :=
  cur_le_shiftUp_aux cur len (cur + 1 - buf) buf le_rfl

/-! ## Claim C3 -/

/-- C3: after any `print` with a frame of height ≥ 1 and width ≥ 1, the
viewport offsets (row offset `buf_col`, column offset `buf_row`) contain the
cursor: `row_offset ≤ row ≤ row_offset + H - 1` and
`col_offset ≤ col ≤ col_offset + W - 1`. -/
theorem claim_C3_viewport_containment (b : Buffer) (f : Frame) (g : Grid)
    (hH : f.start_row < f.end_row) (hW : f.start_col < f.end_col) :
    ((b.print f g).1.buf_col ≤ (b.print f g).1.cur_row ∧
      (b.print f g).1.cur_row
        ≤ (b.print f g).1.buf_col + (f.end_row - f.start_row) - 1) ∧
    ((b.print f g).1.buf_row ≤ (b.print f g).1.cur_col ∧
      (b.print f g).1.cur_col
        ≤ (b.print f g).1.buf_row + (f.end_col - f.start_col) - 1) := by
  have hrow : shiftDown b.cur_row b.buf_col ≤ b.cur_row := by
    rw [shiftDown_eq_min]; omega
  have hcol : shiftDown b.cur_col b.buf_row ≤ b.cur_col := by
    rw [shiftDown_eq_min]; omega
  exact ⟨⟨shiftUp_le_cur (by omega) hrow, cur_le_shiftUp _ _ _⟩,
    ⟨shiftUp_le_cur (by omega) hcol, cur_le_shiftUp _ _ _⟩⟩

/-! ## Pointwise characterization of the render loops -/

theorem writeCell_apply (g : Grid) (r c : Nat) (ch : Char) (r2 c2 : Nat) :
    writeCell g r c ch r2 c2 = if r2 = r ∧ c2 = c then ch else g r2 c2 := rfl

theorem printCols_apply (line : List Char) (endCol row : Nat) :
    ∀ fuel dataCol col (g : Grid) r c, endCol - col ≤ fuel →
      printCols line dataCol col endCol row g r c =
        if r = row ∧ col ≤ c ∧ c < endCol then
          (if dataCol + (c - col) < line.length then
            line.getD (dataCol + (c - col)) ' '
          else ' ')
        else g r c := by
  intro fuel
  induction fuel with
  | zero =>
    intro dataCol col g r c h
    unfold printCols
    rw [dif_neg (by omega), if_neg (by rintro ⟨-, h1, h2⟩; omega)]
  | succ fuel ih =>
    intro dataCol col g r c h
    unfold printCols
    by_cases hcol : col < endCol
    · rw [dif_pos hcol]
      rw [ih (dataCol + 1) (col + 1) _ r c (by omega)]
      by_cases hin : r = row ∧ col + 1 ≤ c ∧ c < endCol
      · rw [if_pos hin]
        have heq : dataCol + 1 + (c - (col + 1)) = dataCol + (c - col) := by omega
        rw [heq, if_pos (show r = row ∧ col ≤ c ∧ c < endCol from
          ⟨hin.1, by omega, hin.2.2⟩)]
      · rw [if_neg hin]
        by_cases hev : r = row ∧ col ≤ c ∧ c < endCol
        · have hceq : c = col := by
            rcases hev with ⟨e1, e2, e3⟩
            by_contra hcne
            exact hin ⟨e1, by omega, e3⟩
          rw [if_pos hev, writeCell_apply,
            if_pos (show r = row ∧ c = col from ⟨hev.1, hceq⟩), hceq]
          simp
        · rw [if_neg hev, writeCell_apply,
            if_neg (show ¬(r = row ∧ c = col) by
              rintro ⟨h1, h2⟩; exact hev ⟨h1, by omega, by omega⟩)]
    · rw [dif_neg hcol, if_neg (by rintro ⟨-, h1, h2⟩; omega)]

theorem printBlanks_apply (endCol row : Nat) :
    ∀ fuel col (g : Grid) r c, endCol - col ≤ fuel →
      printBlanks col endCol row g r c =
        if r = row ∧ col ≤ c ∧ c < endCol then ' ' else g r c := by
  intro fuel
  induction fuel with
  | zero =>
    intro col g r c h
    unfold printBlanks
    rw [dif_neg (by omega), if_neg (by rintro ⟨-, h1, h2⟩; omega)]
  | succ fuel ih =>
    intro col g r c h
    unfold printBlanks
    by_cases hcol : col < endCol
    · rw [dif_pos hcol]
      rw [ih (col + 1) _ r c (by omega)]
      by_cases hin : r = row ∧ col + 1 ≤ c ∧ c < endCol
      · rw [if_pos hin, if_pos (show r = row ∧ col ≤ c ∧ c < endCol from
          ⟨hin.1, by omega, hin.2.2⟩)]
      · rw [if_neg hin]
        by_cases hev : r = row ∧ col ≤ c ∧ c < endCol
        · have hceq : c = col := by
            rcases hev with ⟨e1, e2, e3⟩
            by_contra hcne
            exact hin ⟨e1, by omega, e3⟩
          rw [if_pos hev, writeCell_apply,
            if_pos (show r = row ∧ c = col from ⟨hev.1, hceq⟩)]
        · rw [if_neg hev, writeCell_apply,
            if_neg (show ¬(r = row ∧ c = col) by
              rintro ⟨h1, h2⟩; exact hev ⟨h1, by omega, by omega⟩)]
    · rw [dif_neg hcol, if_neg (by rintro ⟨-, h1, h2⟩; omega)]

theorem printRows_apply (data : List (List Char)) (bufRow : Nat) (f : Frame) :
    ∀ fuel dataRow row (g : Grid) r c, f.end_row - row ≤ fuel →
      printRows data bufRow dataRow row f g r c =
        if row ≤ r ∧ r < f.end_row then
          (if dataRow + (r - row) < data.length then
            (if f.start_col ≤ c ∧ c < f.end_col then
              (if bufRow + (c - f.start_col)
                  < (data.getD (dataRow + (r - row)) []).length then
                (data.getD (dataRow + (r - row)) []).getD
                  (bufRow + (c - f.start_col)) ' '
              else ' ')
            else g r c)
          else
            (if c = f.start_col then '~'
            else if f.start_col + 1 ≤ c ∧ c < f.end_col then ' '
            else g r c))
        else g r c := by
  intro fuel
  induction fuel with
  | zero =>
    intro dataRow row g r c h
    unfold printRows
    rw [dif_neg (by omega), if_neg (by rintro ⟨h1, h2⟩; omega)]
  | succ fuel ih =>
    intro dataRow row g r c h
    unfold printRows
    by_cases hrow : row < f.end_row
    · rw [dif_pos hrow]
      rw [ih (dataRow + 1) (row + 1) _ r c (by omega)]
      by_cases hne : r = row
      · subst hne
        rw [if_neg (by rintro ⟨h1, -⟩; omega),
          if_pos (show r ≤ r ∧ r < f.end_row from ⟨le_refl r, hrow⟩)]
        simp only [Nat.sub_self, Nat.add_zero]
        by_cases hd0 : dataRow < data.length
        · rw [if_pos hd0, if_pos hd0,
            printCols_apply (data.getD dataRow []) f.end_col r
              (f.end_col - f.start_col) bufRow f.start_col g r c le_rfl]
          by_cases hcc : f.start_col ≤ c ∧ c < f.end_col
          · rw [if_pos (show r = r ∧ f.start_col ≤ c ∧ c < f.end_col from
              ⟨rfl, hcc.1, hcc.2⟩), if_pos hcc]
          · rw [if_neg (by rintro ⟨-, h1, h2⟩; exact hcc ⟨h1, h2⟩), if_neg hcc]
        · rw [if_neg hd0, if_neg hd0,
            printBlanks_apply f.end_col r (f.end_col - (f.start_col + 1))
              (f.start_col + 1) _ r c le_rfl]
          by_cases htc : c = f.start_col
          · rw [if_neg (by rintro ⟨-, h1, h2⟩; omega), writeCell_apply,
              if_pos (show r = r ∧ c = f.start_col from ⟨rfl, htc⟩), if_pos htc]
          · rw [if_neg htc]
            by_cases hbc : f.start_col + 1 ≤ c ∧ c < f.end_col
            · rw [if_pos (show r = r ∧ f.start_col + 1 ≤ c ∧ c < f.end_col from
                ⟨rfl, hbc.1, hbc.2⟩), if_pos hbc]
            · rw [if_neg (by rintro ⟨-, h1, h2⟩; exact hbc ⟨h1, h2⟩),
                writeCell_apply,
                if_neg (show ¬(r = r ∧ c = f.start_col) by
                  rintro ⟨-, h1⟩; exact htc h1),
                if_neg hbc]
      · have hg1 : (if dataRow < data.length then
              printCols (data.getD dataRow []) bufRow f.start_col f.end_col row g
            else printBlanks (f.start_col + 1) f.end_col row
              (writeCell g row f.start_col '~')) r c = g r c := by
          by_cases hd0 : dataRow < data.length
          · rw [if_pos hd0,
              printCols_apply (data.getD dataRow []) f.end_col row
                (f.end_col - f.start_col) bufRow f.start_col g r c le_rfl,
              if_neg (by rintro ⟨h1, -⟩; exact hne h1)]
          · rw [if_neg hd0,
              printBlanks_apply f.end_col row (f.end_col - (f.start_col + 1))
                (f.start_col + 1) _ r c le_rfl,
              if_neg (by rintro ⟨h1, -⟩; exact hne h1), writeCell_apply,
              if_neg (by rintro ⟨h1, -⟩; exact hne h1)]
        by_cases hin : row + 1 ≤ r ∧ r < f.end_row
        · rw [if_pos hin]
          have heq : dataRow + 1 + (r - (row + 1)) = dataRow + (r - row) := by
            omega
          rw [heq, if_pos (show row ≤ r ∧ r < f.end_row from
            ⟨by omega, hin.2⟩)]
          by_cases hd : dataRow + (r - row) < data.length
          · rw [if_pos hd, if_pos hd]
            by_cases hcc : f.start_col ≤ c ∧ c < f.end_col
            · rw [if_pos hcc, if_pos hcc]
            · rw [if_neg hcc, if_neg hcc, hg1]
          · rw [if_neg hd, if_neg hd]
            by_cases htc : c = f.start_col
            · rw [if_pos htc, if_pos htc]
            · rw [if_neg htc, if_neg htc]
              by_cases hbc : f.start_col + 1 ≤ c ∧ c < f.end_col
              · rw [if_pos hbc, if_pos hbc]
              · rw [if_neg hbc, if_neg hbc, hg1]
        · rw [if_neg hin,
            if_neg (show ¬(row ≤ r ∧ r < f.end_row) by
              rintro ⟨h1, h2⟩; exact hin ⟨by omega, h2⟩)]
          exact hg1
    · rw [dif_neg hrow, if_neg (by rintro ⟨h1, h2⟩; omega)]

/-- A concrete frame and an all-blank grid for the render claims. -/
def frameExample : Frame := ⟨0, 0, 2, 3⟩

/-- A concrete initial grid. -/
def gridExample : Grid := fun _ _ => '.'

/-! ## Claim C6 -/

/-- C6: renderer cell contents: after `print` with frame `F`, every cell
inside `F` at `(dr, dc)` holds the document character at
`(row_offset + (dr - start_row), col_offset + (dc - start_col))` when that
document row exists and the column index is within the line's length; a
blank when the row exists but the column index is past the line's length;
and, when the document row does not exist, `'~'` at the frame's first
column and blanks in the remaining columns. -/
theorem claim_C6_render_cells (b : Buffer) (f : Frame) (g : Grid) (dr dc : Nat)
    (h1 : f.start_row ≤ dr) (h2 : dr < f.end_row)
    (h3 : f.start_col ≤ dc) (h4 : dc < f.end_col) :
    (b.print f g).2 dr dc =
      if (b.print f g).1.buf_col + (dr - f.start_row) < b.data.length then
        (if (b.print f g).1.buf_row + (dc - f.start_col)
            < (b.data.getD ((b.print f g).1.buf_col + (dr - f.start_row)) []).length
          then
          (b.data.getD ((b.print f g).1.buf_col + (dr - f.start_row)) []).getD
            ((b.print f g).1.buf_row + (dc - f.start_col)) ' '
        else ' ')
      else if dc = f.start_col then '~' else ' ' := by
  rw [show (b.print f g).1 = b.confine_frame f from rfl,
    show (b.print f g).2 = printRows (b.confine_frame f).data
      (b.confine_frame f).buf_row (b.confine_frame f).buf_col f.start_row f g
      from rfl,
    show (b.confine_frame f).data = b.data from rfl]
  rw [printRows_apply b.data (b.confine_frame f).buf_row f
    (f.end_row - f.start_row) (b.confine_frame f).buf_col f.start_row g dr dc
    le_rfl]
  rw [if_pos (show f.start_row ≤ dr ∧ dr < f.end_row from ⟨h1, h2⟩)]
  by_cases hd : (b.confine_frame f).buf_col + (dr - f.start_row) < b.data.length
  · rw [if_pos hd, if_pos hd,
      if_pos (show f.start_col ≤ dc ∧ dc < f.end_col from ⟨h3, h4⟩)]
  · rw [if_neg hd, if_neg hd]
    by_cases htc : dc = f.start_col
    · rw [if_pos htc, if_pos htc]
    · rw [if_neg htc, if_neg htc,
        if_pos (show f.start_col + 1 ≤ dc ∧ dc < f.end_col from ⟨by omega, h4⟩)]

/-- Witness for C6 at a concrete state, frame, grid and cell. -/
theorem claim_C6_witness :
    (frameExample.start_row ≤ 1 ∧ 1 < frameExample.end_row ∧
      frameExample.start_col ≤ 2 ∧ 2 < frameExample.end_col) ∧
    (bExample.print frameExample gridExample).2 1 2 =
      (if (bExample.print frameExample gridExample).1.buf_col
          + (1 - frameExample.start_row) < bExample.data.length then
        (if (bExample.print frameExample gridExample).1.buf_row
            + (2 - frameExample.start_col)
            < (bExample.data.getD
                ((bExample.print frameExample gridExample).1.buf_col
                  + (1 - frameExample.start_row)) []).length then
          (bExample.data.getD
            ((bExample.print frameExample gridExample).1.buf_col
              + (1 - frameExample.start_row)) []).getD
            ((bExample.print frameExample gridExample).1.buf_row
              + (2 - frameExample.start_col)) ' '
        else ' ')
      else if 2 = frameExample.start_col then '~' else ' ') :=
  ⟨⟨by decide, by decide, by decide, by decide⟩,
    claim_C6_render_cells bExample frameExample gridExample 1 2
      (by decide) (by decide) (by decide) (by decide)⟩

/-! ## Claim C7 -/

/-- C7 as stated is false: with a zero-width frame (`start_col = end_col`,
so no cell is inside the rectangle) whose row range extends past the end of
the document, `print` still paints the `'~'` marker at the frame's first
column, a cell outside the rectangle: at the concrete state below the cell
`(1, 0)` lies outside the frame `⟨0, 0, 2, 0⟩` (its column range is empty)
yet changes from `'.'` to `'~'`. -/
theorem claim_C7_counterexample :
    (Frame.mk 0 0 2 0).end_col ≤ 0 ∧
      ((Buffer.mk [[sentinel]] 0 0 0 0).print (Frame.mk 0 0 2 0) gridExample).2 1 0
        ≠ gridExample 1 0 := by
  constructor
  · exact le_refl 0
  · have hsd : shiftDown 0 0 = 0 := by unfold shiftDown; simp
    have hsu0 : shiftUp 0 0 0 = 0 := by unfold shiftUp; simp
    have hsu2 : shiftUp 0 0 2 = 0 := by unfold shiftUp; simp
    have hval : ((Buffer.mk [[sentinel]] 0 0 0 0).print (Frame.mk 0 0 2 0)
        gridExample).2 1 0 = '~' := by
      show printRows [[sentinel]] (shiftUp 0 (shiftDown 0 0) (0 - 0))
        (shiftUp 0 (shiftDown 0 0) (2 - 0)) 0 (Frame.mk 0 0 2 0) gridExample 1 0
        = '~'
      rw [show (0 : Nat) - 0 = 0 from rfl, show (2 : Nat) - 0 = 2 from rfl,
        hsd, hsu0, hsu2]
      rw [printRows_apply [[sentinel]] 0 (Frame.mk 0 0 2 0) 2 0 0 gridExample
        1 0 (by decide)]
      norm_num
    rw [hval]
    decide

/-- C7 (amended): for every frame whose column range is non-empty
(`start_col < end_col`), `print` writes only to cells inside the rectangle
`[start_row, end_row) × [start_col, end_col)`; every cell outside it
retains its previous contents. (The amendment excludes zero-width frames,
for which the `'~'` marker is still painted at the frame's first column of
every display row past the end of the document.) -/
theorem claim_C7_frame_effect (b : Buffer) (f : Frame) (g : Grid)
    (hW : f.start_col < f.end_col) (r c : Nat)
    (hout : r < f.start_row ∨ f.end_row ≤ r ∨ c < f.start_col ∨ f.end_col ≤ c) :
    (b.print f g).2 r c = g r c := by
  rw [show (b.print f g).2 = printRows (b.confine_frame f).data
      (b.confine_frame f).buf_row (b.confine_frame f).buf_col f.start_row f g
      from rfl]
  rw [printRows_apply (b.confine_frame f).data (b.confine_frame f).buf_row f
    (f.end_row - f.start_row) (b.confine_frame f).buf_col f.start_row g r c
    le_rfl]
  by_cases hrow : f.start_row ≤ r ∧ r < f.end_row
  · rw [if_pos hrow]
    have hcol : ¬(f.start_col ≤ c ∧ c < f.end_col) := by
      rcases hout with h | h | h | h <;> omega
    have hc1 : c ≠ f.start_col := by
      rcases hout with h | h | h | h <;> omega
    have hc2 : ¬(f.start_col + 1 ≤ c ∧ c < f.end_col) := by
      rcases hout with h | h | h | h <;> omega
    by_cases hd : (b.confine_frame f).buf_col + (r - f.start_row)
        < (b.confine_frame f).data.length
    · rw [if_pos hd, if_neg hcol]
    · rw [if_neg hd, if_neg hc1, if_neg hc2]
  · rw [if_neg hrow]

/-- Witness for the amended C7 at a concrete state, frame, grid and cell. -/
theorem claim_C7_witness :
    (frameExample.start_col < frameExample.end_col ∧
      (5 < frameExample.start_row ∨ frameExample.end_row ≤ 5 ∨
        0 < frameExample.start_col ∨ frameExample.end_col ≤ 0)) ∧
    (bExample.print frameExample gridExample).2 5 0 = gridExample 5 0 :=
  ⟨⟨by decide, Or.inr (Or.inl (by decide))⟩,
    claim_C7_frame_effect bExample frameExample gridExample (by decide) 5 0
      (Or.inr (Or.inl (by decide)))⟩

/-! ## Claim C4 -/

/-- C4 as stated is false: a mid-stream write failure is not non-fatal. In
the source, `f.write(...).unwrap()` panics when the write returns an error,
so with a successful `File::create` and a failing write, `save` panics
instead of reporting and continuing. -/
theorem claim_C4_counterexample :
    (bExample.save (Except.ok ()) (Except.error "disk full")).1
      = SaveOutcome.panicked := rfl

/-- C4 (amended): a failure of the open/create step is reported (the
`eprintln!` arm) and is non-fatal; a mid-stream write failure hits
`.unwrap()` and panics; in every case `save` leaves the in-memory document
(indeed the whole buffer state) unchanged. -/
theorem claim_C4_save_error_handling (b : Buffer) (e : String)
    (cr : Except String Unit) (wr : Except String Nat) :
    (b.save (Except.error e) wr).1 = SaveOutcome.createErrReported ∧
    (b.save (Except.ok ()) (Except.error e)).1 = SaveOutcome.panicked ∧
    (b.save cr wr).2 = b := by
  refine ⟨rfl, rfl, ?_⟩
  cases cr with
  | ok u => cases wr <;> rfl
  | error e2 => rfl

/-! ## Save/load serialization lemmas for C5 -/

/-- The `'\n'`-join of a list of lines: the shape `saveGo` produces once the
per-line `pop` of the sentinel is accounted for. -/
def joinNL : List (List Char) → List Char
  | [] => []
  | [l] => l
  | l :: l2 :: ls => l ++ '\n' :: joinNL (l2 :: ls)

theorem saveGo_eq_joinNL (lastIdx : Nat) :
    ∀ (rest : List (List Char)) (i : Nat) (acc : List Char),
      (∀ l ∈ rest, l ≠ []) → i + rest.length = lastIdx + 1 →
      saveGo lastIdx i acc rest = acc ++ joinNL (rest.map List.dropLast) := by
  intro rest
  induction rest with
  | nil =>
    intro i acc h hlen
    simp [saveGo, joinNL]
  | cons l rest ih =>
    intro i acc h hlen
    have hl : l ≠ [] := h l (List.mem_cons_self l rest)
    unfold saveGo
    dsimp only
    rw [List.dropLast_append_of_ne_nil _ hl]
    cases rest with
    | nil =>
      have hi : i = lastIdx := by simp at hlen; omega
      rw [if_neg (by simp [hi])]
      simp [saveGo, joinNL]
    | cons l2 rest2 =>
      have hi : i ≠ lastIdx := by simp at hlen; omega
      rw [if_pos hi]
      rw [ih (i + 1) (acc ++ l.dropLast ++ ['\n'])
        (fun m hm => h m (List.mem_cons_of_mem l hm)) (by simp at hlen ⊢; omega)]
      simp [joinNL]

theorem saveBytes_eq_joinNL (d : List (List Char)) (hne : ∀ l ∈ d, l ≠ [])
    (hpos : 1 ≤ d.length) : saveBytes d = joinNL (d.map List.dropLast) := by
  unfold saveBytes
  rw [saveGo_eq_joinNL (d.length - 1) d 0 [] hne (by omega)]
  simp

theorem splitLines_ne_nil : ∀ s : List Char, splitLines s ≠ [] := by
  intro s
  cases s with
  | nil => simp [splitLines]
  | cons c rest =>
    unfold splitLines
    by_cases hsep : c = '\n' ∨ c = '\r'
    · rw [if_pos hsep]; simp
    · rw [if_neg hsep]
      cases splitLines rest <;> simp

theorem joinNL_cons_cons (a b : List Char) (ls : List (List Char)) :
    joinNL (a :: b :: ls) = a ++ '\n' :: joinNL (b :: ls) := rfl

theorem joinNL_splitLines : ∀ s : List Char, '\r' ∉ s →
    joinNL (splitLines s) = s := by
  intro s
  induction s with
  | nil => intro h; rfl
  | cons c rest ih =>
    intro h
    have hcr : c ≠ '\r' := fun hc => h (hc ▸ List.mem_cons_self c rest)
    have hrest : '\r' ∉ rest := fun hm => h (List.mem_cons_of_mem c hm)
    obtain ⟨l, ls, hEq⟩ := List.exists_cons_of_ne_nil (splitLines_ne_nil rest)
    unfold splitLines
    by_cases hsep : c = '\n' ∨ c = '\r'
    · have hnl : c = '\n' := by rcases hsep with h1 | h1; exact h1; exact absurd h1 hcr
      rw [if_pos hsep, hEq, joinNL_cons_cons, List.nil_append, ← hEq,
        ih hrest, hnl]
    · rw [if_neg hsep, hEq]
      cases ls with
      | nil =>
        show (c :: l) = c :: rest
        have : joinNL (splitLines rest) = rest := ih hrest
        rw [hEq] at this
        show c :: l = c :: rest
        rw [show joinNL [l] = l from rfl] at this
        rw [this]
      | cons l2 ls2 =>
        show (c :: l) ++ '\n' :: joinNL (l2 :: ls2) = c :: rest
        have : joinNL (splitLines rest) = rest := ih hrest
        rw [hEq, joinNL_cons_cons] at this
        rw [List.cons_append, this]

theorem mem_joinNL : ∀ (L : List (List Char)) (c : Char), c ∈ joinNL L →
    c = '\n' ∨ ∃ l, l ∈ L ∧ c ∈ l
  | [], c, h => by simp [joinNL] at h
  | [l], c, h => Or.inr ⟨l, by simp, by simpa [joinNL] using h⟩
  | l :: l2 :: ls, c, h => by
    rw [joinNL_cons_cons] at h
    rcases List.mem_append.mp h with h | h
    · exact Or.inr ⟨l, by simp, h⟩
    · rcases List.mem_cons.mp h with h | h
      · exact Or.inl h
      · rcases mem_joinNL (l2 :: ls) c h with h | ⟨m, hm, hc⟩
        · exact Or.inl h
        · exact Or.inr ⟨m, List.mem_cons_of_mem l hm, hc⟩

/-! ## Claim C5 -/

/-- C5: save/load round-trip: for every well-formed document whose line
contents (the characters before the sentinel) contain no carriage returns,
serializing with `save`, loading the bytes with `read_buffer`, and saving
again produces the identical byte string. -/
theorem claim_C5_save_load_roundtrip (d : List (List Char)) (h1 : WFdata d)
    (h2 : ∀ l ∈ d, '\r' ∉ l.dropLast) :
    saveBytes (read_buffer (saveBytes d)) = saveBytes d := by
  have hne : ∀ l ∈ d, l ≠ [] := fun l hl => (h1.2 l hl).1
  have hs1 : saveBytes d = joinNL (d.map List.dropLast) :=
    saveBytes_eq_joinNL d hne h1.1
  have hne2 : ∀ l ∈ read_buffer (saveBytes d), l ≠ [] := by
    intro l hl
    rw [read_buffer, List.mem_map] at hl
    obtain ⟨a, -, rfl⟩ := hl
    simp
  have hlenpos : 1 ≤ (read_buffer (saveBytes d)).length := by
    rw [read_buffer, List.length_map]
    have := splitLines_ne_nil (saveBytes d)
    exact List.length_pos.mpr this
  have hs2 : saveBytes (read_buffer (saveBytes d))
      = joinNL ((read_buffer (saveBytes d)).map List.dropLast) :=
    saveBytes_eq_joinNL _ hne2 hlenpos
  have hmap : (read_buffer (saveBytes d)).map List.dropLast
      = splitLines (saveBytes d) := by
    rw [read_buffer, List.map_map]
    have hcomp : (List.dropLast ∘ fun l : List Char => l ++ [sentinel])
        = fun l : List Char => l := by
      funext a
      simp
    rw [hcomp]
    exact List.map_id' _
  have hnoCR : '\r' ∉ saveBytes d := by
    rw [hs1]
    intro hmem
    rcases mem_joinNL _ _ hmem with h | ⟨m, hm, hc⟩
    · exact absurd h (by decide)
    · rw [List.mem_map] at hm
      obtain ⟨l, hl, rfl⟩ := hm
      exact h2 l hl hc
  rw [hs2, hmap, joinNL_splitLines _ hnoCR]

/-- A concrete well-formed document for the C5 witness. -/
def docExample : List (List Char) := [['a', 'b', sentinel], [sentinel], ['c', sentinel]]

/-- Witness for C5 at a concrete document. -/
theorem claim_C5_witness :
    (WFdata docExample ∧ ∀ l ∈ docExample, '\r' ∉ l.dropLast) ∧
      saveBytes (read_buffer (saveBytes docExample)) = saveBytes docExample :=
  ⟨⟨by decide, by decide⟩,
    claim_C5_save_load_roundtrip docExample (by decide) (by decide)⟩

/-- Witness for C3 at a concrete state, frame and grid. -/
theorem claim_C3_witness :
    (frameExample.start_row < frameExample.end_row ∧
      frameExample.start_col < frameExample.end_col) ∧
    (((bExample.print frameExample gridExample).1.buf_col
        ≤ (bExample.print frameExample gridExample).1.cur_row ∧
      (bExample.print frameExample gridExample).1.cur_row
        ≤ (bExample.print frameExample gridExample).1.buf_col
          + (frameExample.end_row - frameExample.start_row) - 1) ∧
    ((bExample.print frameExample gridExample).1.buf_row
        ≤ (bExample.print frameExample gridExample).1.cur_col ∧
      (bExample.print frameExample gridExample).1.cur_col
        ≤ (bExample.print frameExample gridExample).1.buf_row
          + (frameExample.end_col - frameExample.start_col) - 1)) :=
  ⟨⟨by decide, by decide⟩,
    claim_C3_viewport_containment bExample frameExample gridExample
      (by decide) (by decide)⟩

/-! ## Claim C8 -/

/-- C8: whenever `move_up` or `move_down` succeeds (returns `true`, i.e.
changes the row), the column becomes `min(col, len(new_line) - 1)`, and in
particular never points past the new line's sentinel. -/
theorem claim_C8_vertical_clamp (b : Buffer) (h : WF b) :
    ((b.move_up).1 = true →
      (b.move_up).2.cur_row = b.cur_row - 1 ∧
      (b.move_up).2.cur_col
        = min b.cur_col ((b.lineAt (b.cur_row - 1)).length - 1) ∧
      (b.move_up).2.cur_col < (b.lineAt (b.cur_row - 1)).length) ∧
    ((b.move_down).1 = true →
      (b.move_down).2.cur_row = b.cur_row + 1 ∧
      (b.move_down).2.cur_col
        = min b.cur_col ((b.lineAt (b.cur_row + 1)).length - 1) ∧
      (b.move_down).2.cur_col < (b.lineAt (b.cur_row + 1)).length) := by
  obtain ⟨hd, hr, hc⟩ := h
  constructor
  · intro hmv
    rcases Nat.eq_zero_or_pos b.cur_row with h0 | h0
    · rw [Buffer.move_up_of_zero h0] at hmv; cases hmv
    · rw [Buffer.move_up_of_pos h0]
      have hpos := hd.lineAt_pos (show b.cur_row - 1 < b.data.length by omega)
      refine ⟨rfl, rfl, ?_⟩
      show min b.cur_col ((b.lineAt (b.cur_row - 1)).length - 1)
        < (b.lineAt (b.cur_row - 1)).length
      omega
  · intro hmv
    by_cases hlt : b.cur_row < b.data.length - 1
    · rw [Buffer.move_down_of_lt hlt]
      have hpos := hd.lineAt_pos (show b.cur_row + 1 < b.data.length by omega)
      refine ⟨rfl, rfl, ?_⟩
      show min b.cur_col ((b.lineAt (b.cur_row + 1)).length - 1)
        < (b.lineAt (b.cur_row + 1)).length
      omega
    · rw [Buffer.move_down_of_last hlt] at hmv; cases hmv

/-- Witness for C8 at a concrete state: from row 1 of a two-line document
`move_up` succeeds (and lands on the longer line 0 without clamping) while
`move_down` fails, making its implication vacuous. -/
theorem claim_C8_witness :
    WF bExample ∧
      (((bExample.move_up).1 = true →
        (bExample.move_up).2.cur_row = bExample.cur_row - 1 ∧
        (bExample.move_up).2.cur_col
          = min bExample.cur_col ((bExample.lineAt (bExample.cur_row - 1)).length - 1) ∧
        (bExample.move_up).2.cur_col
          < (bExample.lineAt (bExample.cur_row - 1)).length) ∧
      ((bExample.move_down).1 = true →
        (bExample.move_down).2.cur_row = bExample.cur_row + 1 ∧
        (bExample.move_down).2.cur_col
          = min bExample.cur_col ((bExample.lineAt (bExample.cur_row + 1)).length - 1) ∧
        (bExample.move_down).2.cur_col
          < (bExample.lineAt (bExample.cur_row + 1)).length)) :=
  ⟨by decide, claim_C8_vertical_clamp bExample (by decide)⟩

/-! ## Claim C9 -/

/-- C9: `delete_char` semantics: with `col > 0` it removes the character at
`col - 1` of the current line and moves the cursor left one column; with
`col = 0` and `row > 0` it merges the current line into the line above
(above's content followed by the current line's content, one sentinel at the
end), removes the current line, and puts the cursor on the line above at the
prior boundary column; at `(0,0)` the state is unchanged. -/
theorem claim_C9_delete_char (b : Buffer) (h : WF b) :
    (0 < b.cur_col →
      b.delete_char =
        { b with
            data := b.data.set b.cur_row
              ((b.lineAt b.cur_row).eraseIdx (b.cur_col - 1)),
            cur_col := b.cur_col - 1 }) ∧
    (b.cur_col = 0 → 0 < b.cur_row →
      b.delete_char =
        { b with
            data := (b.data.eraseIdx b.cur_row).set (b.cur_row - 1)
              ((b.lineAt (b.cur_row - 1)).dropLast ++ b.lineAt b.cur_row),
            cur_row := b.cur_row - 1,
            cur_col := (b.lineAt (b.cur_row - 1)).dropLast.length }) ∧
    (b.cur_col = 0 → b.cur_row = 0 → b.delete_char = b) := by
  obtain ⟨hd, hr, hc⟩ := h
  refine ⟨fun hpos => Buffer.delete_char_eq_of_pos hpos,
    fun h0 hrow => ?_, fun h0 hrow => ?_⟩
  · rw [Buffer.delete_char_eq_of_zero (by omega),
      Buffer.join_line_eq (by omega) hr]
  · rw [Buffer.delete_char_eq_of_zero (by omega), Buffer.join_line,
      if_pos hrow]

/-- Witness for C9 at a concrete state. -/
theorem claim_C9_witness :
    WF bExample ∧
      ((0 < bExample.cur_col →
        bExample.delete_char =
          { bExample with
              data := bExample.data.set bExample.cur_row
                ((bExample.lineAt bExample.cur_row).eraseIdx (bExample.cur_col - 1)),
              cur_col := bExample.cur_col - 1 }) ∧
      (bExample.cur_col = 0 → 0 < bExample.cur_row →
        bExample.delete_char =
          { bExample with
              data := (bExample.data.eraseIdx bExample.cur_row).set (bExample.cur_row - 1)
                ((bExample.lineAt (bExample.cur_row - 1)).dropLast
                  ++ bExample.lineAt bExample.cur_row),
              cur_row := bExample.cur_row - 1,
              cur_col := (bExample.lineAt (bExample.cur_row - 1)).dropLast.length }) ∧
      (bExample.cur_col = 0 → bExample.cur_row = 0 → bExample.delete_char = bExample)) :=
  ⟨by decide, claim_C9_delete_char bExample (by decide)⟩

/-! ## Claim C10 -/

/-- C10: `insert_char c` inserts `c` immediately before `col` in the current
line and advances the cursor one column (on a well-formed state the cursor is
never at the line's end after the insertion, so no reflow happens and the
operation always succeeds); in particular, from the empty document,
`insert_char 'a'` then `insert_char 'b'` yields the line
`['a','b','\0']` with cursor `(0, 2)`. -/
theorem claim_C10_insert_char (b : Buffer) (c : Char) (h : WF b) :
    b.insert_char c =
      { b with
          data := b.data.set b.cur_row
            ((b.lineAt b.cur_row).insertIdx b.cur_col c),
          cur_col := b.cur_col + 1 } ∧
    (((Buffer.mk empty_buffer 0 0 0 0).insert_char 'a').insert_char 'b').data
      = [['a', 'b', sentinel]] ∧
    (((Buffer.mk empty_buffer 0 0 0 0).insert_char 'a').insert_char 'b').cur_row = 0 ∧
    (((Buffer.mk empty_buffer 0 0 0 0).insert_char 'a').insert_char 'b').cur_col = 2 :=
  ⟨Buffer.insert_char_eq h c, by decide, by decide, by decide⟩

/-- Witness for C10 at a concrete state. -/
theorem claim_C10_witness :
    WF bExample ∧
      (bExample.insert_char 'z' =
        { bExample with
            data := bExample.data.set bExample.cur_row
              ((bExample.lineAt bExample.cur_row).insertIdx bExample.cur_col 'z'),
            cur_col := bExample.cur_col + 1 } ∧
      (((Buffer.mk empty_buffer 0 0 0 0).insert_char 'a').insert_char 'b').data
        = [['a', 'b', sentinel]] ∧
      (((Buffer.mk empty_buffer 0 0 0 0).insert_char 'a').insert_char 'b').cur_row = 0 ∧
      (((Buffer.mk empty_buffer 0 0 0 0).insert_char 'a').insert_char 'b').cur_col = 2) :=
  ⟨by decide, claim_C10_insert_char bExample 'z' (by decide)⟩
